import Mathlib

/-!
Formal model of the generative audio-visual engine of the brylie.music site:

* the ocean-wave calculation utilities (`src/animations/oceanWaves.ts`);
* the audio band-energy analysis of the `OceanWaves` Svelte component
  (both the variant hardcoding a 44100 Hz sample rate and the variant
  reading the audio context's actual sample rate);
* the `HarmonicsEngine` additive-synthesis state machine (`harmonics.ts`,
  both the variant without and the variant with the `setFundamental`
  input guard).

JavaScript numbers are modelled as exact rationals (`ℚ`); where the
distinction between finite and non-finite values matters (the
`setFundamental` guard) an explicit `JSNum` type with NaN and ±Infinity
is used.  `p5.noise` is an injected function parameter, exactly as in the
source.
-/

namespace OceanWaves

/-- Reduction factor for z-axis noise influence (`NOISE_Z_SCALE_FACTOR = 0.5`). -/
def NOISE_Z_SCALE_FACTOR : ℚ := 1/2

/-- Center offset for noise value mapping (`NOISE_CENTER_OFFSET = 0.5`). -/
def NOISE_CENTER_OFFSET : ℚ := 1/2

/-- Multiplier converting the noise range to the full amplitude range
(`AMPLITUDE_RANGE_MULTIPLIER = 2`). -/
def AMPLITUDE_RANGE_MULTIPLIER : ℚ := 2

/-- `OceanWaveConfig` from `oceanWaves.ts`. -/
structure OceanWaveConfig where
  layers : ℕ
  noiseScale : ℚ
  amplitude : ℚ
  waveSpeed : ℚ
  foamThreshold : ℚ
  perspective : ℚ
deriving Repr, DecidableEq

/-- `DEFAULT_OCEAN_CONFIG` from `oceanWaves.ts`. -/
def DEFAULT_OCEAN_CONFIG : OceanWaveConfig :=
  { layers := 5
    noiseScale := 3/1000
    amplitude := 50
    waveSpeed := 1/125
    foamThreshold := 7/10
    perspective := 3/5 }

/-- The depth scale computed inside `calculateWavePoint`:
`const depthScale = 1 - (z * perspective);` (note: no clamping in the source). -/
def waveDepthScale (z perspective : ℚ) : ℚ := 1 - z * perspective

/-- `calculateWavePoint(x, z, time, config, noiseFunc)` from `oceanWaves.ts`. -/
def calculateWavePoint (x z time : ℚ) (config : OceanWaveConfig)
    (noiseFunc : ℚ → ℚ → ℚ → ℚ) : ℚ :=
  let depthScale := waveDepthScale z config.perspective
  let scaledAmplitude := config.amplitude * depthScale
  let noiseValue := noiseFunc (x * config.noiseScale)
    (z * config.noiseScale * NOISE_Z_SCALE_FACTOR)
    (time * config.waveSpeed)
  (noiseValue - NOISE_CENTER_OFFSET) * AMPLITUDE_RANGE_MULTIPLIER * scaledAmplitude

/-- `shouldRenderFoam(waveHeight, amplitude, threshold)` from `oceanWaves.ts`.
The source has no guard for `amplitude <= 0`. -/
def shouldRenderFoam (waveHeight amplitude threshold : ℚ) : Bool :=
  let normalizedHeight := (waveHeight + amplitude) / (AMPLITUDE_RANGE_MULTIPLIER * amplitude)
  decide (normalizedHeight ≥ threshold)

/-- A constant noise function returning the top of the noise range `[0,1]`. -/
def constNoiseOne : ℚ → ℚ → ℚ → ℚ := fun _ _ _ => 1

/-- C1: the claim states that the depth scale used by `calculateWavePoint` equals
`max(0, 1 − z·perspective)` and that magnitudes never grow with layer depth.  The
source computes `1 − z·perspective` without clamping: with the default perspective
`0.6` the depth scale at layer 2 is `−0.2 < 0`, and with constant noise `1` the
magnitude at layer 3 (40) exceeds the magnitude at layer 2 (10). -/
theorem calculateWavePoint_depthScale_unclamped :
    waveDepthScale 2 DEFAULT_OCEAN_CONFIG.perspective < 0 ∧
    |calculateWavePoint 5 2 0 DEFAULT_OCEAN_CONFIG constNoiseOne| <
      |calculateWavePoint 5 3 0 DEFAULT_OCEAN_CONFIG constNoiseOne| := by
  have h2 : calculateWavePoint 5 2 0 DEFAULT_OCEAN_CONFIG constNoiseOne = -10 := by
    norm_num [calculateWavePoint, waveDepthScale, DEFAULT_OCEAN_CONFIG, constNoiseOne,
      NOISE_CENTER_OFFSET, AMPLITUDE_RANGE_MULTIPLIER, NOISE_Z_SCALE_FACTOR]
  have h3 : calculateWavePoint 5 3 0 DEFAULT_OCEAN_CONFIG constNoiseOne = -40 := by
    norm_num [calculateWavePoint, waveDepthScale, DEFAULT_OCEAN_CONFIG, constNoiseOne,
      NOISE_CENTER_OFFSET, AMPLITUDE_RANGE_MULTIPLIER, NOISE_Z_SCALE_FACTOR]
  refine ⟨by norm_num [waveDepthScale, DEFAULT_OCEAN_CONFIG], ?_⟩
  rw [h2, h3, abs_of_nonpos (by norm_num), abs_of_nonpos (by norm_num)]
  norm_num

/-- C2: the claim states `shouldRenderFoam` returns `false` whenever
`amplitude ≤ 0`.  The source has no amplitude guard: at `waveHeight = −10`,
`amplitude = −50`, `threshold = 0` the normalized height is `3/5 ≥ 0` and the
function returns `true` (the arithmetic is exact, no rounding involved). -/
theorem shouldRenderFoam_negative_amplitude_true :
    shouldRenderFoam (-10) (-50) 0 = true := by
  simp only [shouldRenderFoam, AMPLITUDE_RANGE_MULTIPLIER, decide_eq_true_eq, ge_iff_le]
  norm_num

/-- Configuration used for the C8 counterexample: amplitude 10, perspective 1. -/
def c8Config : OceanWaveConfig :=
  { layers := 1, noiseScale := 1, amplitude := 10, waveSpeed := 1
    foamThreshold := 0, perspective := 1 }

/-- C8 counterexample: at layer 2 with perspective 1 and amplitude 10 the
effective amplitude is `10·(1 − 2) = −10`, and the returned height `−10` does
not lie in `[−effectiveAmplitude, +effectiveAmplitude] = [10, −10]`, so the
claimed range containment fails as stated. -/
theorem calculateWavePoint_range_fails_when_effAmp_negative :
    ¬(-(c8Config.amplitude * waveDepthScale 2 c8Config.perspective) ≤
        calculateWavePoint 0 2 0 c8Config constNoiseOne ∧
      calculateWavePoint 0 2 0 c8Config constNoiseOne ≤
        c8Config.amplitude * waveDepthScale 2 c8Config.perspective) := by
  have hv : calculateWavePoint 0 2 0 c8Config constNoiseOne = -10 := by
    norm_num [calculateWavePoint, waveDepthScale, c8Config, constNoiseOne,
      NOISE_CENTER_OFFSET, AMPLITUDE_RANGE_MULTIPLIER, NOISE_Z_SCALE_FACTOR]
  rw [hv]
  norm_num [waveDepthScale, c8Config]

/-- C8 (amended): `calculateWavePoint` samples its noise function exactly at
`(x·noiseScale, z·noiseScale·0.5, time·waveSpeed)` and returns
`(noiseValue − 0.5) · 2 · effectiveAmplitude` with
`effectiveAmplitude = amplitude · (1 − z·perspective)`; it is pure and
deterministic, and whenever the effective amplitude is nonnegative and the
noise value lies in `[0,1]`, the result lies in
`[−effectiveAmplitude, +effectiveAmplitude]`. -/
theorem calculateWavePoint_formula_and_range (x z time : ℚ) (config : OceanWaveConfig)
    (noiseFunc : ℚ → ℚ → ℚ → ℚ)
    (hn0 : 0 ≤ noiseFunc (x * config.noiseScale)
      (z * config.noiseScale * NOISE_Z_SCALE_FACTOR) (time * config.waveSpeed))
    (hn1 : noiseFunc (x * config.noiseScale)
      (z * config.noiseScale * NOISE_Z_SCALE_FACTOR) (time * config.waveSpeed) ≤ 1)
    (heff : 0 ≤ config.amplitude * waveDepthScale z config.perspective) :
    calculateWavePoint x z time config noiseFunc =
      (noiseFunc (x * config.noiseScale)
        (z * config.noiseScale * NOISE_Z_SCALE_FACTOR) (time * config.waveSpeed)
        - 1/2) * 2 * (config.amplitude * waveDepthScale z config.perspective) ∧
    -(config.amplitude * waveDepthScale z config.perspective) ≤
      calculateWavePoint x z time config noiseFunc ∧
    calculateWavePoint x z time config noiseFunc ≤
      config.amplitude * waveDepthScale z config.perspective := by
  set n := noiseFunc (x * config.noiseScale)
    (z * config.noiseScale * NOISE_Z_SCALE_FACTOR) (time * config.waveSpeed) with hn
  refine ⟨rfl, ?_, ?_⟩
  · show -(config.amplitude * waveDepthScale z config.perspective) ≤
      (n - NOISE_CENTER_OFFSET) * AMPLITUDE_RANGE_MULTIPLIER *
        (config.amplitude * waveDepthScale z config.perspective)
    rw [NOISE_CENTER_OFFSET, AMPLITUDE_RANGE_MULTIPLIER]
    nlinarith [heff, hn0, hn1]
  · show (n - NOISE_CENTER_OFFSET) * AMPLITUDE_RANGE_MULTIPLIER *
        (config.amplitude * waveDepthScale z config.perspective) ≤
      config.amplitude * waveDepthScale z config.perspective
    rw [NOISE_CENTER_OFFSET, AMPLITUDE_RANGE_MULTIPLIER]
    nlinarith [heff, hn0, hn1]

/-- Witness for the amended C8 theorem at a concrete input: x = 1, layer 1,
time 0, default config, constant noise 3/4. -/
theorem calculateWavePoint_formula_and_range_witness :
    calculateWavePoint 1 1 0 DEFAULT_OCEAN_CONFIG (fun _ _ _ => 3/4) =
      ((3/4 : ℚ) - 1/2) * 2 *
        (DEFAULT_OCEAN_CONFIG.amplitude * waveDepthScale 1 DEFAULT_OCEAN_CONFIG.perspective) ∧
    -(DEFAULT_OCEAN_CONFIG.amplitude * waveDepthScale 1 DEFAULT_OCEAN_CONFIG.perspective) ≤
      calculateWavePoint 1 1 0 DEFAULT_OCEAN_CONFIG (fun _ _ _ => 3/4) ∧
    calculateWavePoint 1 1 0 DEFAULT_OCEAN_CONFIG (fun _ _ _ => 3/4) ≤
      DEFAULT_OCEAN_CONFIG.amplitude * waveDepthScale 1 DEFAULT_OCEAN_CONFIG.perspective :=
  calculateWavePoint_formula_and_range 1 1 0 DEFAULT_OCEAN_CONFIG (fun _ _ _ => 3/4)
    (by norm_num) (by norm_num)
    (by norm_num [DEFAULT_OCEAN_CONFIG, waveDepthScale])

/-- C9: for every `amplitude > 0` and `waveHeight ∈ [−amplitude, amplitude]`,
`shouldRenderFoam` with threshold 0 returns `true`, and with threshold 1
returns `true` exactly when `waveHeight = amplitude`. -/
theorem shouldRenderFoam_threshold_extremes (a h : ℚ) (ha : 0 < a)
    (hlo : -a ≤ h) (hhi : h ≤ a) :
    shouldRenderFoam h a 0 = true ∧
    (shouldRenderFoam h a 1 = true ↔ h = a) := by
  have h2a : 0 < AMPLITUDE_RANGE_MULTIPLIER * a := by
    rw [AMPLITUDE_RANGE_MULTIPLIER]; linarith
  constructor
  · simp only [shouldRenderFoam, decide_eq_true_eq, ge_iff_le]
    exact div_nonneg (by linarith) (le_of_lt h2a)
  · simp only [shouldRenderFoam, decide_eq_true_eq, ge_iff_le]
    rw [le_div_iff₀ h2a, one_mul, AMPLITUDE_RANGE_MULTIPLIER]
    constructor
    · intro hge; linarith
    · intro heq; rw [heq]; ring_nf; linarith

/-- Witness for the C9 theorem at amplitude 50, waveHeight 25. -/
theorem shouldRenderFoam_threshold_extremes_witness :
    shouldRenderFoam 25 50 0 = true ∧
    (shouldRenderFoam 25 50 1 = true ↔ (25 : ℚ) = 50) :=
  shouldRenderFoam_threshold_extremes 50 25 (by norm_num) (by norm_num) (by norm_num)

end OceanWaves

namespace AudioAnalysis

/-- The summation loop shared by both band-energy functions:
`for (let i = minBin; i <= maxBin && i < dataArray.length; i++) { sum += dataArray[i]; count++; }`.
Returns `(sum, count)`. -/
def bandStats (dataArray : List ℕ) (minBin maxBin : ℤ) : ℕ × ℕ :=
  let idxs := (List.range dataArray.length).filter
    (fun (i : ℕ) => decide (minBin ≤ (i : ℤ)) && decide ((i : ℤ) ≤ maxBin))
  ((idxs.map (fun i => dataArray.getD i 0)).sum, idxs.length)

/-- `getEnergyInRange(minFreq, maxFreq)` from `OceanWaves.svelte`, the variant
with the hardcoded `const SAMPLE_RATE = 44100`.  The analyser/data pair is
modelled as an optional frequency-magnitude buffer (the `!analyser || !dataArray`
guard).  The second component of the result counts how many times
`analyser.getByteFrequencyData` is invoked by the call (the source calls it
once, at the top of the function body). -/
def getEnergyInRange (analyserData : Option (List ℕ)) (minFreq maxFreq : ℚ) : ℚ × ℕ :=
  match analyserData with
  | none => (0, 0)
  | some dataArray =>
    let binSize : ℚ := 44100 / 2048
    let minBin : ℤ := ⌊minFreq / binSize⌋
    let maxBin : ℤ := ⌊maxFreq / binSize⌋
    let s := bandStats dataArray minBin maxBin
    (if 0 < s.2 then (s.1 : ℚ) / (s.2 : ℚ) else 0, 1)

/-- `computeEnergyInRange(minFreq, maxFreq)` from the reworked `OceanWaves`
component: identical bin arithmetic, but the bin size is derived from the
audio context's actual `sampleRate` and the function reads from the
already-populated `dataArray` (it performs no buffer read itself). -/
def computeEnergyInRange (sampleRate : ℚ) (analyserData : Option (List ℕ))
    (minFreq maxFreq : ℚ) : ℚ :=
  match analyserData with
  | none => 0
  | some dataArray =>
    let binSize : ℚ := sampleRate / 2048
    let minBin : ℤ := ⌊minFreq / binSize⌋
    let maxBin : ℤ := ⌊maxFreq / binSize⌋
    let s := bandStats dataArray minBin maxBin
    if 0 < s.2 then (s.1 : ℚ) / (s.2 : ℚ) else 0

/-- The audio-analysis phase of `p.draw` in `OceanWaves.svelte` (hardcoded-rate
variant): when audio is playing it derives the three band energies, each call to
`getEnergyInRange` performing its own buffer read.  Returns the three energies
and the total number of `getByteFrequencyData` reads in the frame. -/
def drawAudioPhase (audioIsPlaying : Bool) (analyserData : Option (List ℕ)) :
    (ℚ × ℚ × ℚ) × ℕ :=
  if audioIsPlaying && analyserData.isSome then
    let low := getEnergyInRange analyserData 20 250
    let mid := getEnergyInRange analyserData 250 4000
    let high := getEnergyInRange analyserData 4000 20000
    ((low.1, mid.1, high.1), low.2 + mid.2 + high.2)
  else ((0, 0, 0), 0)

/-- The audio-analysis phase of `p.draw` in the reworked component: one
`getByteFrequencyData` read, then the three pure `computeEnergyInRange` calls
on the populated buffer. -/
def drawAudioPhaseOnce (audioIsPlaying : Bool) (analyserData : Option (List ℕ))
    (sampleRate : ℚ) : (ℚ × ℚ × ℚ) × ℕ :=
  if audioIsPlaying && analyserData.isSome then
    ((computeEnergyInRange sampleRate analyserData 20 250,
      computeEnergyInRange sampleRate analyserData 250 4000,
      computeEnergyInRange sampleRate analyserData 4000 20000), 1)
  else ((0, 0, 0), 0)

/-- A 12-bin spectrum whose only energy sits in bin 11.  At a 48000 Hz sample
rate, bin 11 covers 257.8–281.3 Hz, i.e. lies outside the low band [20, 250). -/
def sampleSpectrum : List ℕ := List.replicate 11 0 ++ [255]

/-- C3: the claim requires the Hz→bin conversion to use the actual runtime
sample rate of the audio context.  `getEnergyInRange` hardcodes 44100: on a
48000 Hz context its low-band average over `sampleSpectrum` (bins 0–11, value
255/12) differs from the sample-rate-aware computation (bins 0–10, value 0). -/
theorem getEnergyInRange_hardcoded_rate_divergence :
    (getEnergyInRange (some sampleSpectrum) 20 250).1 ≠
      computeEnergyInRange 48000 (some sampleSpectrum) 20 250 := by
  have hmin1 : (⌊(20 : ℚ) / ((44100 : ℚ) / 2048)⌋ : ℤ) = 0 := by norm_num
  have hmax1 : (⌊(250 : ℚ) / ((44100 : ℚ) / 2048)⌋ : ℤ) = 11 := by norm_num
  have hmin2 : (⌊(20 : ℚ) / ((48000 : ℚ) / 2048)⌋ : ℤ) = 0 := by norm_num
  have hmax2 : (⌊(250 : ℚ) / ((48000 : ℚ) / 2048)⌋ : ℤ) = 10 := by norm_num
  have hb1 : bandStats sampleSpectrum 0 11 = (255, 12) := by decide
  have hb2 : bandStats sampleSpectrum 0 10 = (0, 11) := by decide
  simp only [getEnergyInRange, computeEnergyInRange,
    hmin1, hmax1, hmin2, hmax2, hb1, hb2]
  norm_num

/-- C5: the claim mandates that the frequency buffer is read exactly once per
rendered frame regardless of how many bands consume it.  The draw loop of the
hardcoded-rate component calls `getEnergyInRange` three times per playing frame
and each call reads the buffer, so the frame performs 3 reads; the reworked
draw loop performs exactly 1. -/
theorem drawAudioPhase_reads_buffer_three_times :
    (drawAudioPhase true (some sampleSpectrum)).2 = 3 ∧
    (drawAudioPhaseOnce true (some sampleSpectrum) 48000).2 = 1 := by
  constructor <;> rfl

end AudioAnalysis

namespace Harmonics

/-- A JavaScript number: an exact rational, NaN, or a signed infinity. -/
inductive JSNum where
  | num (q : ℚ)
  | nan
  | inf (negative : Bool)
deriving DecidableEq, Repr

/-- `Number.isFinite`. -/
def JSNum.isFinite : JSNum → Bool
  | .num _ => true
  | _ => false

/-- The JavaScript comparison `a <= b` (false whenever either side is NaN). -/
def JSNum.jsLe : JSNum → JSNum → Bool
  | .nan, _ => false
  | _, .nan => false
  | .num x, .num y => decide (x ≤ y)
  | .inf n, .num _ => n
  | .num _, .inf n => !n
  | .inf n, .inf m => n || !m

/-- Multiplication of a JS number by a positive integer, as in
`freq * (index + 1)`; the multiplier is ≥ 1, so signs and NaN propagate as in
IEEE arithmetic. -/
def JSNum.mulPosNat : JSNum → ℕ → JSNum
  | .num q, n => .num (q * n)
  | .nan, _ => .nan
  | .inf s, _ => .inf s

/-- `Harmonic` from `harmonics.ts`. -/
structure Harmonic where
  number : ℕ
  active : Bool
  volume : ℚ
deriving DecidableEq, Repr

/-- `HarmonicsState` from `harmonics.ts`. -/
structure HarmonicsState where
  fundamentalFreq : JSNum
  masterVolume : ℚ
  harmonics : List Harmonic
  isPlaying : Bool
deriving DecidableEq, Repr

/-- An `OscillatorNode` as far as the engine observes it: its frequency value
and whether `start`/`stop` have been called.  `stopped` also covers the case of
an oscillator the audio backend already finalized. -/
structure OscNode where
  freq : JSNum
  started : Bool
  stopped : Bool
deriving DecidableEq, Repr

/-- A `GainNode`: its current gain value. -/
structure GainNode where
  gainValue : ℚ
deriving DecidableEq, Repr

/-- One entry of the engine's `nodes` map: the `{ osc, gain }` pair bound to a
harmonic index. -/
structure NodePair where
  osc : OscNode
  gain : GainNode
deriving DecidableEq, Repr

/-- An `AudioContext`: suspended/running state and the audio clock. -/
structure AudioCtx where
  running : Bool
  currentTime : ℚ
deriving DecidableEq, Repr

/-- The `HarmonicsEngine` instance fields: the lazily created audio chain
(`audioCtx`, `masterGain`, `analyser` — kept as its `fftSize`), the
`nodes : Map<number, {osc, gain}>` binding map (modelled as an insertion-ordered
association list, as a JS `Map` is), and the `state` aggregate. -/
structure HarmonicsEngine where
  audioCtx : Option AudioCtx
  masterGain : Option GainNode
  analyserFft : Option ℕ
  nodes : List (ℕ × NodePair)
  state : HarmonicsState
deriving DecidableEq, Repr

/-- `Map.prototype.has`. -/
def mapHas (m : List (ℕ × NodePair)) (k : ℕ) : Bool :=
  m.any (fun p => p.1 == k)

/-- Replacing the value of the entry `p` when its key equals `k` (the key
object itself is kept, as a JS `Map` does). -/
def setEntry (k : ℕ) (v : NodePair) (p : ℕ × NodePair) : ℕ × NodePair :=
  if p.1 == k then (p.1, v) else p

/-- `Map.prototype.set`: replaces the value in place if the key is present,
otherwise appends a new entry (JS maps preserve insertion order). -/
def mapSet (m : List (ℕ × NodePair)) (k : ℕ) (v : NodePair) : List (ℕ × NodePair) :=
  if mapHas m k then m.map (setEntry k v)
  else m ++ [(k, v)]

/-- `Map.prototype.delete`. -/
def mapDelete (m : List (ℕ × NodePair)) (k : ℕ) : List (ℕ × NodePair) :=
  m.filter (fun p => p.1 != k)

/-- `HARMONIC_GAIN_SCALE = 0.3` (written inline as `0.3` in the first copy of
the source). -/
def HARMONIC_GAIN_SCALE : ℚ := 3/10

/-- The default harmonics bank built in the constructor:
`Array.from({length: 16}, (_, i) => ({number: i+1, active: i === 0, volume: i === 0 ? 1.0 : 0.5 / Math.sqrt(i+1)}))`.
`Math.sqrt` is a host function; it is injected as the parameter `msqrt`
(applied to `i + 1`), the same way the noise function is injected in the wave
code. -/
def defaultHarmonics (msqrt : ℕ → ℚ) : List Harmonic :=
  (List.range 16).map (fun i =>
    { number := i + 1
      active := i == 0
      volume := if i == 0 then 1 else (1/2) / msqrt (i + 1) })

/-- The optional `Partial<HarmonicsState>` constructor argument: a supplied
field overrides the default verbatim (object-spread semantics). -/
structure InitOverride where
  fundamentalFreq : Option JSNum := none
  masterVolume : Option ℚ := none
  harmonics : Option (List Harmonic) := none
  isPlaying : Option Bool := none

/-- The `HarmonicsEngine` constructor: spreads the defaults, then the supplied
partial override, with no validation of the supplied values. -/
def HarmonicsEngine.create (msqrt : ℕ → ℚ) (initialState : InitOverride) :
    HarmonicsEngine :=
  { audioCtx := none
    masterGain := none
    analyserFft := none
    nodes := []
    state :=
      { fundamentalFreq := initialState.fundamentalFreq.getD (.num 220)
        masterVolume := initialState.masterVolume.getD (1/2)
        harmonics := initialState.harmonics.getD (defaultHarmonics msqrt)
        isPlaying := initialState.isPlaying.getD false } }

/-- The object copy `h => ({...h})` used by `getState`. -/
def copyHarmonic (h : Harmonic) : Harmonic :=
  { number := h.number, active := h.active, volume := h.volume }

/-- `getState()`: a snapshot with a fresh harmonics array of fresh objects
(`this.state.harmonics.map(h => ({...h}))`). -/
def HarmonicsEngine.getState (e : HarmonicsEngine) : HarmonicsState :=
  { e.state with harmonics := e.state.harmonics.map copyHarmonic }

/-- `ensureAudioContext()`: lazily and idempotently builds the
master-gain → analyser → destination chain, analyser `fftSize = 2048`, master
gain initialized to the current `masterVolume`. -/
def HarmonicsEngine.ensureAudioContext (e : HarmonicsEngine) : HarmonicsEngine :=
  match e.audioCtx with
  | some _ => e
  | none =>
    { e with
      audioCtx := some { running := false, currentTime := 0 }
      analyserFft := some 2048
      masterGain := some { gainValue := e.state.masterVolume } }

/-- `osc.stop()` on the hardware object: throws if the oscillator was already
stopped/finalized. -/
def OscNode.stopRaw (o : OscNode) : Except String OscNode :=
  if o.stopped then Except.error "InvalidStateError"
  else Except.ok { o with stopped := true }

/-- `try { osc.stop() } catch (e) { }` — the failure of an already-finalized
oscillator is caught and discarded. -/
def OscNode.stopCaught (o : OscNode) : OscNode :=
  match o.stopRaw with
  | Except.ok o2 => o2
  | Except.error _ => o

/-- The `{osc, gain}` pair created by `syncOscillators` for a newly active
harmonic `h` at slot `i`: a sine oscillator at `fundamental · (i+1)`, gain
`volume · HARMONIC_GAIN_SCALE`, started immediately. -/
def mkNodePair (fund : JSNum) (i : ℕ) (h : Harmonic) : NodePair :=
  { osc := { freq := fund.mulPosNat (i + 1), started := true, stopped := false }
    gain := { gainValue := h.volume * HARMONIC_GAIN_SCALE } }

/-- One iteration of the `syncOscillators` loop body for slot `i` holding
harmonic `h`: create-and-bind if newly active, stop-and-unbind if newly
inactive (the stop is wrapped in try/catch), otherwise leave untouched. -/
def syncOne (fund : JSNum) (m : List (ℕ × NodePair)) (i : ℕ) (h : Harmonic) :
    List (ℕ × NodePair) :=
  if h.active && !(mapHas m i) then
    mapSet m i (mkNodePair fund i h)
  else if !h.active && mapHas m i then
    mapDelete m i
  else m

/-- The `state.harmonics.forEach((h, i) => ...)` traversal of
`syncOscillators`, starting at slot index `i`. -/
def syncFrom (fund : JSNum) : ℕ → List Harmonic → List (ℕ × NodePair) →
    List (ℕ × NodePair)
  | _, [], m => m
  | i, h :: rest, m => syncFrom fund (i + 1) rest (syncOne fund m i h)

/-- `syncOscillators()`: no-op unless the audio chain exists. -/
def HarmonicsEngine.syncOscillators (e : HarmonicsEngine) : HarmonicsEngine :=
  match e.audioCtx, e.masterGain with
  | some _, some _ =>
    { e with nodes := syncFrom e.state.fundamentalFreq 0 e.state.harmonics e.nodes }
  | _, _ => e

/-- `play()`: ensure the audio chain, resume a suspended context, set
`isPlaying` and sync the oscillator bank. -/
def HarmonicsEngine.play (e : HarmonicsEngine) : HarmonicsEngine :=
  let e1 := e.ensureAudioContext
  let e2 := match e1.audioCtx with
    | some ctx =>
      if !ctx.running then { e1 with audioCtx := some { ctx with running := true } }
      else e1
    | none => e1
  let e3 := { e2 with state := { e2.state with isPlaying := true } }
  e3.syncOscillators

/-- `stop()`: set `isPlaying := false`, stop every bound oscillator inside
try/catch (tolerating already-finalized oscillators), disconnect, and clear the
binding map.  The stopped hardware objects are discarded with their bindings. -/
def HarmonicsEngine.stop (e : HarmonicsEngine) : HarmonicsEngine :=
  let _finalized := e.nodes.map (fun p => OscNode.stopCaught p.2.osc)
  { e with state := { e.state with isPlaying := false }, nodes := [] }

/-- `togglePlay()`: dispatch on `isPlaying` and return the resulting flag. -/
def HarmonicsEngine.togglePlay (e : HarmonicsEngine) : HarmonicsEngine × Bool :=
  let e2 := if e.state.isPlaying then e.stop else e.play
  (e2, e2.state.isPlaying)

/-- The per-binding effect of `setFundamental` while playing:
`node.osc.frequency.setValueAtTime(freq * (index + 1), now)`. -/
def rescheduleFreq (freq : JSNum) (p : ℕ × NodePair) : ℕ × NodePair :=
  (p.1, { p.2 with osc := { p.2.osc with freq := freq.mulPosNat (p.1 + 1) } })

/-- `setFundamental(freq)` from the first copy of `harmonics.ts` (lines
118–126): no input validation; unconditionally writes `fundamentalFreq` and,
while playing, reschedules every bound oscillator to `freq · (index+1)`. -/
def HarmonicsEngine.setFundamentalNoGuard (e : HarmonicsEngine) (freq : JSNum) :
    HarmonicsEngine :=
  let e1 := { e with state := { e.state with fundamentalFreq := freq } }
  if e1.state.isPlaying && e1.audioCtx.isSome then
    { e1 with nodes := e1.nodes.map (rescheduleFreq freq) }
  else e1

/-- `setFundamental(freq)` from the second copy of `harmonics.ts` (lines
307–316): identical, but guarded by
`if (!Number.isFinite(freq) || freq <= 0) return;`. -/
def HarmonicsEngine.setFundamental (e : HarmonicsEngine) (freq : JSNum) :
    HarmonicsEngine :=
  if !freq.isFinite || freq.jsLe (.num 0) then e
  else e.setFundamentalNoGuard freq

/-- `setFrequency(freq)`: alias for `setFundamental`. -/
def HarmonicsEngine.setFrequency (e : HarmonicsEngine) (freq : JSNum) :
    HarmonicsEngine :=
  e.setFundamental freq

/-- `setMasterVolume(vol)`: writes the state field and, when the audio chain
exists, schedules the master gain value. -/
def HarmonicsEngine.setMasterVolume (e : HarmonicsEngine) (vol : ℚ) :
    HarmonicsEngine :=
  let e1 := { e with state := { e.state with masterVolume := vol } }
  if e1.masterGain.isSome && e1.audioCtx.isSome then
    { e1 with masterGain := e1.masterGain.map (fun _ => { gainValue := vol }) }
  else e1

/-- `toggleHarmonic(index)`: flip the slot's `active` flag (out-of-range index
is a no-op) and re-sync while playing. -/
def HarmonicsEngine.toggleHarmonic (e : HarmonicsEngine) (index : ℕ) :
    HarmonicsEngine :=
  match e.state.harmonics[index]? with
  | none => e
  | some h =>
    let e1 := { e with state := { e.state with
      harmonics := e.state.harmonics.set index { h with active := !h.active } } }
    if e1.state.isPlaying then e1.syncOscillators else e1

/-- The per-binding effect of `setHarmonicVolume` on the node bound to
`index` (`node.gain.gain.setValueAtTime(vol * HARMONIC_GAIN_SCALE, now)`);
other bindings are untouched. -/
def scheduleGainAt (index : ℕ) (vol : ℚ) (p : ℕ × NodePair) : ℕ × NodePair :=
  if p.1 == index then
    (p.1, { p.2 with gain := { gainValue := vol * HARMONIC_GAIN_SCALE } })
  else p

/-- `setHarmonicVolume(index, vol)`: write the slot's volume (out-of-range
index is a no-op) and, while playing with a bound node, schedule its gain to
`vol · HARMONIC_GAIN_SCALE`. -/
def HarmonicsEngine.setHarmonicVolume (e : HarmonicsEngine) (index : ℕ) (vol : ℚ) :
    HarmonicsEngine :=
  match e.state.harmonics[index]? with
  | none => e
  | some h =>
    let e1 := { e with state := { e.state with
      harmonics := e.state.harmonics.set index { h with volume := vol } } }
    if e1.state.isPlaying && e1.audioCtx.isSome then
      { e1 with nodes := e1.nodes.map (scheduleGainAt index vol) }
    else e1

/-- The public operations named by the binding-map invariant. -/
inductive EngineOp where
  | play
  | stop
  | togglePlay
  | toggleHarmonic (index : ℕ)
  | setFundamental (freq : JSNum)
  | setMasterVolume (vol : ℚ)
  | setHarmonicVolume (index : ℕ) (vol : ℚ)

/-- Apply a public operation to an engine. -/
def EngineOp.apply : EngineOp → HarmonicsEngine → HarmonicsEngine
  | .play, e => e.play
  | .stop, e => e.stop
  | .togglePlay, e => e.togglePlay.1
  | .toggleHarmonic i, e => e.toggleHarmonic i
  | .setFundamental f, e => e.setFundamental f
  | .setMasterVolume v, e => e.setMasterVolume v
  | .setHarmonicVolume i v, e => e.setHarmonicVolume i v

/-- `new HarmonicsEngine()` — no constructor override supplied. -/
def emptyOverride : InitOverride := {}

/-- Engine states reachable from a freshly constructed engine through the
public operations. -/
inductive Reachable (msqrt : ℕ → ℚ) : HarmonicsEngine → Prop where
  | init : Reachable msqrt (HarmonicsEngine.create msqrt emptyOverride)
  | step {e : HarmonicsEngine} (op : EngineOp) :
      Reachable msqrt e → Reachable msqrt (op.apply e)

/-- The keys of the binding map, in insertion order. -/
def nodeKeys (m : List (ℕ × NodePair)) : List ℕ := m.map Prod.fst

/-- Whether the harmonic at slot `i` is active (`false` past the end). -/
def activeOf (hs : List Harmonic) (i : ℕ) : Bool :=
  match hs[i]? with
  | some h => h.active
  | none => false

/-- The engine invariant maintained by the public operations: the harmonics
array keeps its 16 slots, the audio chain is created atomically, a playing
engine has its context, and the binding map has distinct in-range keys that
coincide with the active harmonic slots while playing and is empty while
stopped. -/
def EngineInv (e : HarmonicsEngine) : Prop :=
  e.audioCtx.isSome = e.masterGain.isSome ∧
  (e.state.isPlaying = true → e.audioCtx.isSome = true) ∧
  (nodeKeys e.nodes).Nodup ∧
  (∀ k ∈ nodeKeys e.nodes, k < e.state.harmonics.length) ∧
  (e.state.isPlaying = true →
    ∀ k, mapHas e.nodes k = activeOf e.state.harmonics k) ∧
  (e.state.isPlaying = false → e.nodes = [])

lemma mapHas_iff_mem (m : List (ℕ × NodePair)) (k : ℕ) :
    mapHas m k = true ↔ k ∈ nodeKeys m := by
  simp [mapHas, nodeKeys, List.any_eq_true, List.mem_map, beq_iff_eq]

lemma fst_setEntry (k : ℕ) (v : NodePair) (p : ℕ × NodePair) :
    (setEntry k v p).1 = p.1 := by
  unfold setEntry; split <;> rfl

lemma nodeKeys_map_keep {f : ℕ × NodePair → ℕ × NodePair}
    (hf : ∀ p, (f p).1 = p.1) (m : List (ℕ × NodePair)) :
    nodeKeys (m.map f) = nodeKeys m := by
  induction m with
  | nil => rfl
  | cons p t ih => simp only [nodeKeys, List.map_cons] at ih ⊢; rw [hf p, ih]

lemma mapHas_map_keep {f : ℕ × NodePair → ℕ × NodePair}
    (hf : ∀ p, (f p).1 = p.1) (m : List (ℕ × NodePair)) (j : ℕ) :
    mapHas (m.map f) j = mapHas m j := by
  induction m with
  | nil => rfl
  | cons p t ih => simp only [mapHas, List.map_cons, List.any_cons] at ih ⊢; rw [hf p, ih]

lemma mapHas_mapSet (m : List (ℕ × NodePair)) (k : ℕ) (v : NodePair) (j : ℕ) :
    mapHas (mapSet m k v) j = (j == k || mapHas m j) := by
  unfold mapSet
  by_cases hk : mapHas m k = true
  · rw [if_pos hk, mapHas_map_keep (fst_setEntry k v)]
    by_cases hjk : j = k
    · subst hjk; simp [hk]
    · simp [hjk]
  · rw [if_neg hk]
    by_cases hjk : j = k
    · subst hjk; simp [mapHas, List.any_append]
    · have h1 : (j == k) = false := by simp [hjk]
      have h2 : (k == j) = false := by
        simp only [beq_eq_false_iff_ne, ne_eq]
        exact fun he => hjk he.symm
      simp [mapHas, List.any_append, h1, h2]

lemma mapHas_mapDelete (m : List (ℕ × NodePair)) (k : ℕ) (j : ℕ) :
    mapHas (mapDelete m k) j = (!(j == k) && mapHas m j) := by
  simp only [mapDelete, mapHas, List.any_filter]
  by_cases hjk : j = k
  · subst hjk
    simp only [beq_self_eq_true, Bool.not_true, Bool.false_and]
    rw [List.any_eq_false]
    intro a _
    by_cases h : a.1 = j <;> simp [h]
  · have h1 : (j == k) = false := by simp [hjk]
    simp only [h1, Bool.not_false, Bool.true_and]
    have hfun : (fun (a : ℕ × NodePair) => a.1 != k && a.1 == j) =
        (fun (a : ℕ × NodePair) => a.1 == j) := by
      funext a
      by_cases h : a.1 = k
      · have h2 : (a.1 == j) = false := by
          rw [h]
          simp only [beq_eq_false_iff_ne, ne_eq]
          exact fun he => hjk he.symm
        simp [h, h2]
        exact fun he => hjk he.symm
      · simp [h]
    rw [hfun]

lemma nodup_mapSet (m : List (ℕ × NodePair)) (k : ℕ) (v : NodePair)
    (h : (nodeKeys m).Nodup) : (nodeKeys (mapSet m k v)).Nodup := by
  unfold mapSet
  by_cases hk : mapHas m k = true
  · rw [if_pos hk, nodeKeys_map_keep (fst_setEntry k v)]; exact h
  · rw [if_neg hk]
    have hk2 : k ∉ nodeKeys m := fun hm => hk ((mapHas_iff_mem m k).2 hm)
    simp only [nodeKeys, List.map_append, List.map_cons, List.map_nil]
    rw [List.nodup_append]
    refine ⟨h, List.nodup_singleton k, ?_⟩
    intro a ha hb
    simp only [List.mem_singleton] at hb
    exact hk2 (hb ▸ ha)

lemma nodup_mapDelete (m : List (ℕ × NodePair)) (k : ℕ)
    (h : (nodeKeys m).Nodup) : (nodeKeys (mapDelete m k)).Nodup := by
  have hsub : (nodeKeys (mapDelete m k)).Sublist (nodeKeys m) :=
    (List.filter_sublist m).map Prod.fst
  exact h.sublist hsub

lemma mem_keys_mapSet (m : List (ℕ × NodePair)) (k : ℕ) (v : NodePair) (j : ℕ)
    (h : j ∈ nodeKeys (mapSet m k v)) : j ∈ nodeKeys m ∨ j = k := by
  have h2 := (mapHas_iff_mem _ j).2 h
  rw [mapHas_mapSet, Bool.or_eq_true] at h2
  rcases h2 with he | he
  · exact Or.inr (by simpa using he)
  · exact Or.inl ((mapHas_iff_mem m j).1 he)

lemma mem_keys_mapDelete (m : List (ℕ × NodePair)) (k : ℕ) (j : ℕ)
    (h : j ∈ nodeKeys (mapDelete m k)) : j ∈ nodeKeys m := by
  have h2 := (mapHas_iff_mem _ j).2 h
  rw [mapHas_mapDelete, Bool.and_eq_true] at h2
  exact (mapHas_iff_mem m j).1 h2.2

lemma mapHas_syncOne (f : JSNum) (m : List (ℕ × NodePair)) (i : ℕ) (h : Harmonic)
    (k : ℕ) :
    mapHas (syncOne f m i h) k = if k = i then h.active else mapHas m k := by
  unfold syncOne
  by_cases ha : h.active = true <;> by_cases hm : mapHas m i = true <;>
    by_cases hk : k = i <;>
    simp [ha, hm, hk, mapHas_mapSet, mapHas_mapDelete]

lemma nodup_syncOne (f : JSNum) (m : List (ℕ × NodePair)) (i : ℕ) (h : Harmonic)
    (hd : (nodeKeys m).Nodup) : (nodeKeys (syncOne f m i h)).Nodup := by
  unfold syncOne
  split
  · exact nodup_mapSet m i _ hd
  · split
    · exact nodup_mapDelete m i hd
    · exact hd

lemma mem_keys_syncOne (f : JSNum) (m : List (ℕ × NodePair)) (i : ℕ) (h : Harmonic)
    (j : ℕ) (hj : j ∈ nodeKeys (syncOne f m i h)) : j ∈ nodeKeys m ∨ j = i := by
  unfold syncOne at hj
  revert hj
  split
  · exact fun hj => mem_keys_mapSet m i _ j hj
  · split
    · exact fun hj => Or.inl (mem_keys_mapDelete m i j hj)
    · exact fun hj => Or.inl hj

lemma activeOf_cons_zero (h : Harmonic) (rest : List Harmonic) :
    activeOf (h :: rest) 0 = h.active := by
  simp [activeOf]

lemma activeOf_cons_succ (h : Harmonic) (rest : List Harmonic) (n : ℕ) :
    activeOf (h :: rest) (n + 1) = activeOf rest n := by
  simp [activeOf]

lemma mapHas_syncFrom (f : JSNum) (hs : List Harmonic) :
    ∀ (start : ℕ) (m : List (ℕ × NodePair)) (k : ℕ),
      mapHas (syncFrom f start hs m) k =
        if start ≤ k ∧ k < start + hs.length then activeOf hs (k - start)
        else mapHas m k := by
  induction hs with
  | nil =>
    intro start m k
    have hc : ¬(start ≤ k ∧ k < start + ([] : List Harmonic).length) := by
      simp only [List.length_nil]
      omega
    rw [syncFrom, if_neg hc]
  | cons h rest ih =>
    intro start m k
    rw [syncFrom, ih (start + 1) (syncOne f m start h) k, mapHas_syncOne]
    by_cases hk : k = start
    · have c1 : ¬(start + 1 ≤ k ∧ k < start + 1 + rest.length) := by omega
      have c2 : start ≤ k ∧ k < start + (h :: rest).length := by
        simp only [List.length_cons]
        omega
      rw [if_neg c1, if_pos c2, if_pos hk, hk, Nat.sub_self, activeOf_cons_zero]
    · by_cases hr : start ≤ k ∧ k < start + (h :: rest).length
      · have c1 : start + 1 ≤ k ∧ k < start + 1 + rest.length := by
          simp only [List.length_cons] at hr
          omega
        rw [if_pos c1, if_pos hr]
        have harith : k - start = (k - (start + 1)) + 1 := by omega
        rw [harith, activeOf_cons_succ]
      · have c1 : ¬(start + 1 ≤ k ∧ k < start + 1 + rest.length) := by
          simp only [List.length_cons] at hr
          omega
        rw [if_neg c1, if_neg hr, if_neg hk]

lemma nodup_syncFrom (f : JSNum) (hs : List Harmonic) :
    ∀ (start : ℕ) (m : List (ℕ × NodePair)), (nodeKeys m).Nodup →
      (nodeKeys (syncFrom f start hs m)).Nodup := by
  induction hs with
  | nil => intro start m hd; exact hd
  | cons h rest ih =>
    intro start m hd
    exact ih (start + 1) _ (nodup_syncOne f m start h hd)

lemma mem_keys_syncFrom (f : JSNum) (hs : List Harmonic) :
    ∀ (start : ℕ) (m : List (ℕ × NodePair)) (j : ℕ),
      j ∈ nodeKeys (syncFrom f start hs m) →
      j ∈ nodeKeys m ∨ (start ≤ j ∧ j < start + hs.length) := by
  induction hs with
  | nil => intro start m j hj; exact Or.inl hj
  | cons h rest ih =>
    intro start m j hj
    rcases ih (start + 1) _ j hj with hin | hrange
    · rcases mem_keys_syncOne f m start h j hin with h1 | h1
      · exact Or.inl h1
      · refine Or.inr ⟨by omega, ?_⟩
        simp only [List.length_cons]
        omega
    · refine Or.inr ⟨by omega, ?_⟩
      simp only [List.length_cons]
      omega

lemma activeOf_ge_length (hs : List Harmonic) (k : ℕ) (h : hs.length ≤ k) :
    activeOf hs k = false := by
  simp [activeOf, List.getElem?_eq_none h]

lemma activeOf_set_same_active (hs : List Harmonic) (i : ℕ) (h hnew : Harmonic)
    (hact : hnew.active = h.active) (hget : hs[i]? = some h) (k : ℕ) :
    activeOf (hs.set i hnew) k = activeOf hs k := by
  by_cases hk : k = i
  · have hi : i < hs.length := by
      by_contra hcon
      rw [List.getElem?_eq_none (by omega)] at hget
      cases hget
    rw [hk]
    simp [activeOf, List.getElem?_set_eq_of_lt _ hi, hget, hact]
  · simp [activeOf, List.getElem?_set_ne (fun he => hk he.symm)]

lemma ensure_state (e : HarmonicsEngine) :
    e.ensureAudioContext.state = e.state := by
  unfold HarmonicsEngine.ensureAudioContext
  split <;> rfl

lemma ensure_nodes (e : HarmonicsEngine) :
    e.ensureAudioContext.nodes = e.nodes := by
  unfold HarmonicsEngine.ensureAudioContext
  split <;> rfl

lemma ensureAudioContext_some (e : HarmonicsEngine)
    (h : e.audioCtx.isSome = e.masterGain.isSome) :
    ∃ c g, e.ensureAudioContext.audioCtx = some c ∧
      e.ensureAudioContext.masterGain = some g := by
  rcases hc : e.audioCtx with _ | c
  · refine ⟨{ running := false, currentTime := 0 },
      { gainValue := e.state.masterVolume }, ?_, ?_⟩ <;>
      simp [HarmonicsEngine.ensureAudioContext, hc]
  · rw [hc] at h
    rcases hg : e.masterGain with _ | g
    · rw [hg] at h
      simp at h
    · exact ⟨c, g, by simp [HarmonicsEngine.ensureAudioContext, hc],
        by simp [HarmonicsEngine.ensureAudioContext, hc, hg]⟩

lemma syncOscillators_eq (e : HarmonicsEngine) (c : AudioCtx) (g : GainNode)
    (hc : e.audioCtx = some c) (hg : e.masterGain = some g) :
    e.syncOscillators =
      { e with nodes := syncFrom e.state.fundamentalFreq 0 e.state.harmonics e.nodes } := by
  unfold HarmonicsEngine.syncOscillators
  rw [hc, hg]

lemma inv_sync_play (e : HarmonicsEngine)
    (hp : e.state.isPlaying = true)
    (hc : ∃ c, e.audioCtx = some c) (hg : ∃ g, e.masterGain = some g)
    (hnd : (nodeKeys e.nodes).Nodup)
    (hbd : ∀ k ∈ nodeKeys e.nodes, k < e.state.harmonics.length) :
    EngineInv e.syncOscillators := by
  obtain ⟨c, hc⟩ := hc
  obtain ⟨g, hg⟩ := hg
  rw [syncOscillators_eq e c g hc hg]
  unfold EngineInv
  dsimp only
  refine ⟨by simp [hc, hg], fun _ => by simp [hc], ?_, ?_, ?_, ?_⟩
  · exact nodup_syncFrom _ _ 0 _ hnd
  · intro k hk
    rcases mem_keys_syncFrom _ _ 0 _ k hk with h1 | h1
    · exact hbd k h1
    · omega
  · intro _ k
    rw [mapHas_syncFrom]
    by_cases hlt : k < e.state.harmonics.length
    · rw [if_pos ⟨Nat.zero_le k, by omega⟩, Nat.sub_zero]
    · rw [if_neg (by omega), activeOf_ge_length _ _ (by omega)]
      cases hmb : mapHas e.nodes k with
      | false => rfl
      | true => exact absurd (hbd k ((mapHas_iff_mem _ k).1 hmb)) (by omega)
  · intro hfalse
    rw [hp] at hfalse
    cases hfalse

lemma inv_create (msqrt : ℕ → ℚ) :
    EngineInv (HarmonicsEngine.create msqrt emptyOverride) := by
  refine ⟨rfl, ?_, ?_, ?_, ?_, ?_⟩
  · intro h
    simp [HarmonicsEngine.create, emptyOverride] at h
  · simp [HarmonicsEngine.create, nodeKeys]
  · intro k hk
    simp [HarmonicsEngine.create, nodeKeys] at hk
  · intro h
    simp [HarmonicsEngine.create, emptyOverride] at h
  · intro _
    rfl

lemma inv_stop (e : HarmonicsEngine) (h : EngineInv e) : EngineInv e.stop := by
  obtain ⟨hcm, _, _, _, _, _⟩ := h
  refine ⟨hcm, ?_, ?_, ?_, ?_, ?_⟩
  · intro hp
    simp [HarmonicsEngine.stop] at hp
  · simp [HarmonicsEngine.stop, nodeKeys]
  · intro k hk
    simp [HarmonicsEngine.stop, nodeKeys] at hk
  · intro hp
    simp [HarmonicsEngine.stop] at hp
  · intro _
    rfl

lemma play_decomp (e : HarmonicsEngine) (hcm : e.audioCtx.isSome = e.masterGain.isSome) :
    ∃ e2 : HarmonicsEngine,
      e.play = ({ e2 with state := { e2.state with isPlaying := true } }).syncOscillators ∧
      e2.state = e.state ∧ e2.nodes = e.nodes ∧
      (∃ c, e2.audioCtx = some c) ∧ (∃ g, e2.masterGain = some g) := by
  obtain ⟨c, g, hc, hg⟩ := ensureAudioContext_some e hcm
  by_cases hr : c.running = true
  · refine ⟨e.ensureAudioContext, ?_, ensure_state e, ensure_nodes e, ⟨c, hc⟩, ⟨g, hg⟩⟩
    simp [HarmonicsEngine.play, hc, hr]
  · refine ⟨{ e.ensureAudioContext with audioCtx := some { c with running := true } },
      ?_, ensure_state e, ensure_nodes e, ⟨_, rfl⟩, ⟨g, hg⟩⟩
    simp [HarmonicsEngine.play, hc, hr]

lemma inv_play (e : HarmonicsEngine) (h : EngineInv e) : EngineInv e.play := by
  obtain ⟨hcm, hpc, hnd, hbd, hplay, hstop⟩ := h
  obtain ⟨e2, hpe, hst, hnodes, hc2, hg2⟩ := play_decomp e hcm
  rw [hpe]
  apply inv_sync_play
  · rfl
  · exact hc2
  · exact hg2
  · show (nodeKeys e2.nodes).Nodup
    rw [hnodes]
    exact hnd
  · intro k hk
    show k < e2.state.harmonics.length
    rw [hst]
    refine hbd k ?_
    rw [← hnodes]
    exact hk

lemma inv_togglePlay (e : HarmonicsEngine) (h : EngineInv e) :
    EngineInv e.togglePlay.1 := by
  by_cases hp : e.state.isPlaying = true
  · have he : e.togglePlay.1 = e.stop := by
      simp [HarmonicsEngine.togglePlay, hp]
    rw [he]
    exact inv_stop e h
  · have he : e.togglePlay.1 = e.play := by
      simp [HarmonicsEngine.togglePlay, hp]
    rw [he]
    exact inv_play e h

lemma inv_toggleHarmonic (e : HarmonicsEngine) (i : ℕ) (h : EngineInv e) :
    EngineInv (e.toggleHarmonic i) := by
  obtain ⟨hcm, hpc, hnd, hbd, hplay, hstop⟩ := h
  rcases hgi : e.state.harmonics[i]? with _ | hh
  · simp only [HarmonicsEngine.toggleHarmonic, hgi]
    exact ⟨hcm, hpc, hnd, hbd, hplay, hstop⟩
  · simp only [HarmonicsEngine.toggleHarmonic, hgi]
    by_cases hp : e.state.isPlaying = true
    · rw [if_pos hp]
      apply inv_sync_play
      · exact hp
      · exact Option.isSome_iff_exists.1 (hpc hp)
      · exact Option.isSome_iff_exists.1 (hcm ▸ hpc hp)
      · exact hnd
      · intro k hk
        show k < (e.state.harmonics.set i _).length
        rw [List.length_set]
        exact hbd k hk
    · rw [if_neg hp]
      have hpf : e.state.isPlaying = false := by
        cases hb : e.state.isPlaying
        · rfl
        · exact absurd hb hp
      refine ⟨hcm, fun hp1 => absurd hp1 hp, hnd, ?_, fun hp1 => absurd hp1 hp, ?_⟩
      · intro k hk
        show k < (e.state.harmonics.set i _).length
        rw [List.length_set]
        exact hbd k hk
      · intro _
        exact hstop hpf

lemma inv_setFundamentalNoGuard (e : HarmonicsEngine) (f : JSNum)
    (h : EngineInv e) : EngineInv (e.setFundamentalNoGuard f) := by
  obtain ⟨hcm, hpc, hnd, hbd, hplay, hstop⟩ := h
  unfold HarmonicsEngine.setFundamentalNoGuard
  dsimp only
  by_cases hcond : (e.state.isPlaying && e.audioCtx.isSome) = true
  · rw [if_pos hcond]
    have hkeep : ∀ p : ℕ × NodePair, (rescheduleFreq f p).1 = p.1 := fun _ => rfl
    refine ⟨hcm, hpc, ?_, ?_, ?_, ?_⟩
    · show (nodeKeys (e.nodes.map (rescheduleFreq f))).Nodup
      rw [nodeKeys_map_keep hkeep]
      exact hnd
    · intro k hk
      rw [show nodeKeys (e.nodes.map (rescheduleFreq f)) = nodeKeys e.nodes from
        nodeKeys_map_keep hkeep e.nodes] at hk
      exact hbd k hk
    · intro hp k
      rw [show mapHas (e.nodes.map (rescheduleFreq f)) k = mapHas e.nodes k from
        mapHas_map_keep hkeep e.nodes k]
      exact hplay hp k
    · intro hp
      rw [hstop hp]
      rfl
  · rw [if_neg hcond]
    exact ⟨hcm, hpc, hnd, hbd, hplay, hstop⟩

lemma inv_setFundamental (e : HarmonicsEngine) (f : JSNum) (h : EngineInv e) :
    EngineInv (e.setFundamental f) := by
  unfold HarmonicsEngine.setFundamental
  split
  · exact h
  · exact inv_setFundamentalNoGuard e f h

lemma inv_setMasterVolume (e : HarmonicsEngine) (v : ℚ) (h : EngineInv e) :
    EngineInv (e.setMasterVolume v) := by
  obtain ⟨hcm, hpc, hnd, hbd, hplay, hstop⟩ := h
  unfold HarmonicsEngine.setMasterVolume
  dsimp only
  by_cases hcond : (e.masterGain.isSome && e.audioCtx.isSome) = true
  · rw [if_pos hcond]
    refine ⟨?_, hpc, hnd, hbd, hplay, hstop⟩
    have hmap : ∀ (o : Option GainNode) (f : GainNode → GainNode),
        (o.map f).isSome = o.isSome := by
      intro o f
      cases o <;> rfl
    show e.audioCtx.isSome = (e.masterGain.map _).isSome
    rw [hmap]
    exact hcm
  · rw [if_neg hcond]
    exact ⟨hcm, hpc, hnd, hbd, hplay, hstop⟩

lemma inv_setHarmonicVolume (e : HarmonicsEngine) (i : ℕ) (v : ℚ)
    (h : EngineInv e) : EngineInv (e.setHarmonicVolume i v) := by
  obtain ⟨hcm, hpc, hnd, hbd, hplay, hstop⟩ := h
  rcases hgi : e.state.harmonics[i]? with _ | hh
  · simp only [HarmonicsEngine.setHarmonicVolume, hgi]
    exact ⟨hcm, hpc, hnd, hbd, hplay, hstop⟩
  · simp only [HarmonicsEngine.setHarmonicVolume, hgi]
    have hkeep : ∀ p : ℕ × NodePair, (scheduleGainAt i v p).1 = p.1 := by
      intro p
      unfold scheduleGainAt
      split <;> rfl
    by_cases hcond : (e.state.isPlaying && e.audioCtx.isSome) = true
    · rw [if_pos hcond]
      refine ⟨hcm, hpc, ?_, ?_, ?_, ?_⟩
      · show (nodeKeys (e.nodes.map (scheduleGainAt i v))).Nodup
        rw [nodeKeys_map_keep hkeep]
        exact hnd
      · intro k hk
        rw [show nodeKeys (e.nodes.map (scheduleGainAt i v)) = nodeKeys e.nodes from
          nodeKeys_map_keep hkeep e.nodes] at hk
        show k < (e.state.harmonics.set i _).length
        rw [List.length_set]
        exact hbd k hk
      · intro hp k
        rw [show mapHas (e.nodes.map (scheduleGainAt i v)) k = mapHas e.nodes k from
          mapHas_map_keep hkeep e.nodes k,
          activeOf_set_same_active e.state.harmonics i hh
            { number := hh.number, active := hh.active, volume := v } rfl hgi k]
        exact hplay hp k
      · intro hp
        rw [hp] at hcond
        simp at hcond
    · rw [if_neg hcond]
      refine ⟨hcm, hpc, hnd, ?_, ?_, ?_⟩
      · intro k hk
        show k < (e.state.harmonics.set i _).length
        rw [List.length_set]
        exact hbd k hk
      · intro hp k
        exfalso
        apply hcond
        rw [hp, hpc hp]
        rfl
      · intro hp
        exact hstop hp

lemma inv_op (op : EngineOp) (e : HarmonicsEngine) (h : EngineInv e) :
    EngineInv (op.apply e) := by
  cases op with
  | play => exact inv_play e h
  | stop => exact inv_stop e h
  | togglePlay => exact inv_togglePlay e h
  | toggleHarmonic i => exact inv_toggleHarmonic e i h
  | setFundamental f => exact inv_setFundamental e f h
  | setMasterVolume v => exact inv_setMasterVolume e v h
  | setHarmonicVolume i v => exact inv_setHarmonicVolume e i v h

lemma reachable_inv (msqrt : ℕ → ℚ) (e : HarmonicsEngine)
    (h : Reachable msqrt e) : EngineInv e := by
  induction h with
  | init => exact inv_create msqrt
  | step op _ ih => exact inv_op op _ ih

lemma syncOscillators_state (e : HarmonicsEngine) :
    e.syncOscillators.state = e.state := by
  unfold HarmonicsEngine.syncOscillators
  split <;> rfl

lemma play_isPlaying (e : HarmonicsEngine) : e.play.state.isPlaying = true := by
  simp only [HarmonicsEngine.play, syncOscillators_state]

/-- A concrete stand-in for the injected `Math.sqrt` host function. -/
def msqrtOne : ℕ → ℚ := fun _ => 1

/-- C6: in every state of the `HarmonicsEngine` reachable from a freshly
constructed engine through the public operations (play, stop, togglePlay,
toggleHarmonic, setFundamental, setMasterVolume, setHarmonicVolume), the
oscillator-binding map contains exactly one binding per currently-active
harmonic while `isPlaying` is true, and zero bindings while `isPlaying` is
false. -/
theorem reachable_binding_invariant (msqrt : ℕ → ℚ) (e : HarmonicsEngine)
    (h : Reachable msqrt e) :
    (e.state.isPlaying = true →
      ∀ i, (nodeKeys e.nodes).count i =
        (if activeOf e.state.harmonics i = true then 1 else 0)) ∧
    (e.state.isPlaying = false → e.nodes = []) := by
  obtain ⟨_, _, hnd, _, hplay, hstop⟩ := reachable_inv msqrt e h
  refine ⟨?_, hstop⟩
  intro hp i
  have hmap := hplay hp i
  by_cases ha : activeOf e.state.harmonics i = true
  · rw [if_pos ha]
    rw [ha] at hmap
    exact List.count_eq_one_of_mem hnd ((mapHas_iff_mem _ i).1 hmap)
  · rw [if_neg ha]
    have hf : activeOf e.state.harmonics i = false := by
      cases hb : activeOf e.state.harmonics i
      · rfl
      · exact absurd hb ha
    rw [hf] at hmap
    refine List.count_eq_zero.2 ?_
    intro hmem
    have hcon := (mapHas_iff_mem e.nodes i).2 hmem
    rw [hmap] at hcon
    cases hcon

/-- The engine right after `new HarmonicsEngine()` followed by `play()`. -/
def engineAfterPlay : HarmonicsEngine :=
  EngineOp.play.apply (HarmonicsEngine.create msqrtOne emptyOverride)

/-- Witness for the C6 theorem: the state reached by `play()` from a fresh
engine is reachable, so the binding invariant holds there. -/
theorem reachable_binding_invariant_witness :
    (engineAfterPlay.state.isPlaying = true →
      ∀ i, (nodeKeys engineAfterPlay.nodes).count i =
        (if activeOf engineAfterPlay.state.harmonics i = true then 1 else 0)) ∧
    (engineAfterPlay.state.isPlaying = false → engineAfterPlay.nodes = []) :=
  reachable_binding_invariant msqrtOne engineAfterPlay
    (Reachable.step EngineOp.play Reachable.init)

/-- C7: `stop()` always yields a stopped engine with zero bindings and is
idempotent — safe to call any number of times from any state, including states
whose bound oscillators the audio backend already finalized (every `osc.stop()`
call site is wrapped in try/catch, so the operation is total); and from any
stopped state, calling `togglePlay()` twice ends with `isPlaying = false` and
zero bindings, the second call returning `false`. -/
theorem stop_safe_and_togglePlay_roundtrip (e : HarmonicsEngine) :
    e.stop.state.isPlaying = false ∧
    e.stop.nodes = [] ∧
    e.stop.stop = e.stop ∧
    (e.state.isPlaying = false →
      (e.togglePlay.1.togglePlay.1.state.isPlaying = false ∧
       e.togglePlay.1.togglePlay.1.nodes = [] ∧
       e.togglePlay.1.togglePlay.2 = false)) := by
  refine ⟨rfl, rfl, rfl, ?_⟩
  intro hp
  have h1 : e.togglePlay.1 = e.play := by
    simp [HarmonicsEngine.togglePlay, hp]
  have h2 : e.play.togglePlay = (e.play.stop, e.play.stop.state.isPlaying) := by
    simp [HarmonicsEngine.togglePlay, play_isPlaying e]
  rw [h1, h2]
  exact ⟨rfl, rfl, rfl⟩

/-- An engine holding a binding whose oscillator the backend already finalized
(`stopped = true`), used to witness that `stop()` tolerates it. -/
def finalizedOscEngine : HarmonicsEngine :=
  { audioCtx := some { running := true, currentTime := 0 }
    masterGain := some { gainValue := 1/2 }
    analyserFft := some 2048
    nodes := [(0, { osc := { freq := JSNum.num 220, started := true, stopped := true }
                    gain := { gainValue := 3/10 } })]
    state := { fundamentalFreq := JSNum.num 220
               masterVolume := 1/2
               harmonics := [{ number := 1, active := true, volume := 1 }]
               isPlaying := false } }

/-- Witness for the C7 theorem at an engine with an already-finalized
oscillator. -/
theorem stop_safe_and_togglePlay_roundtrip_witness :
    finalizedOscEngine.stop.state.isPlaying = false ∧
    finalizedOscEngine.stop.nodes = [] ∧
    finalizedOscEngine.stop.stop = finalizedOscEngine.stop ∧
    (finalizedOscEngine.togglePlay.1.togglePlay.1.state.isPlaying = false ∧
     finalizedOscEngine.togglePlay.1.togglePlay.1.nodes = [] ∧
     finalizedOscEngine.togglePlay.1.togglePlay.2 = false) := by
  have t := stop_safe_and_togglePlay_roundtrip finalizedOscEngine
  exact ⟨t.1, t.2.1, t.2.2.1, t.2.2.2 rfl⟩

/-- C4: the claim requires `setFundamental` (and its alias `setFrequency`) to
ignore non-finite or non-positive frequencies silently.  The first copy of the
engine source has no such guard: from a fresh engine, `setFundamental(-5)`
stores `-5` and `setFundamental(NaN)` stores NaN instead of keeping the
default 220.  The guarded second copy leaves the engine unchanged on the same
input and accepts 440 as claimed. -/
theorem setFundamentalNoGuard_accepts_invalid_input :
    ((HarmonicsEngine.create msqrtOne emptyOverride).setFundamentalNoGuard
        (JSNum.num (-5))).getState.fundamentalFreq = JSNum.num (-5) ∧
    ((HarmonicsEngine.create msqrtOne emptyOverride).setFundamentalNoGuard
        JSNum.nan).getState.fundamentalFreq = JSNum.nan ∧
    (HarmonicsEngine.create msqrtOne emptyOverride).setFundamental
        (JSNum.num (-5)) = HarmonicsEngine.create msqrtOne emptyOverride ∧
    ((HarmonicsEngine.create msqrtOne emptyOverride).setFundamental
        (JSNum.num 440)).getState.fundamentalFreq = JSNum.num 440 := by
  refine ⟨rfl, rfl, ?_, ?_⟩
  · have hg : ((JSNum.num (-5)).jsLe (JSNum.num 0)) = true := by
      simp [JSNum.jsLe]
    simp [HarmonicsEngine.setFundamental, JSNum.isFinite, hg]
  · have hg : ((JSNum.num 440).jsLe (JSNum.num 0)) = false := by
      simp [JSNum.jsLe]
    simp [HarmonicsEngine.setFundamental, JSNum.isFinite, hg,
      HarmonicsEngine.setFundamentalNoGuard, HarmonicsEngine.create,
      HarmonicsEngine.getState, emptyOverride]

/-- C10: the constructor merges the supplied partial initial state verbatim
over the defaults, with no validation: every supplied field — including а
harmonics array of the wrong length or a master volume outside `[0,1]` — shows
up in `getState()` exactly as supplied. -/
theorem create_merges_override_verbatim (msqrt : ℕ → ℚ) (ov : InitOverride) :
    (∀ f, ov.fundamentalFreq = some f →
      (HarmonicsEngine.create msqrt ov).getState.fundamentalFreq = f) ∧
    (∀ v, ov.masterVolume = some v →
      (HarmonicsEngine.create msqrt ov).getState.masterVolume = v) ∧
    (∀ hs, ov.harmonics = some hs →
      (HarmonicsEngine.create msqrt ov).getState.harmonics = hs) ∧
    (∀ b, ov.isPlaying = some b →
      (HarmonicsEngine.create msqrt ov).getState.isPlaying = b) := by
  have hcopy : ∀ hs : List Harmonic, hs.map copyHarmonic = hs := by
    intro hs
    have hid : copyHarmonic = id := funext fun _ => rfl
    rw [hid, List.map_id]
  refine ⟨?_, ?_, ?_, ?_⟩
  · intro f hf
    simp [HarmonicsEngine.create, HarmonicsEngine.getState, hf]
  · intro v hv
    simp [HarmonicsEngine.create, HarmonicsEngine.getState, hv]
  · intro hs hh
    simp [HarmonicsEngine.create, HarmonicsEngine.getState, hh, hcopy]
  · intro b hb
    simp [HarmonicsEngine.create, HarmonicsEngine.getState, hb]

/-- A constructor override with a 1-element harmonics array and a master
volume of 2 (outside `[0,1]`). -/
def overrideSample : InitOverride :=
  { fundamentalFreq := some (JSNum.num 330)
    masterVolume := some 2
    harmonics := some [{ number := 7, active := true, volume := 5 }]
    isPlaying := some true }

/-- Witness for the C10 theorem: the out-of-range override fields pass through
to `getState()` unvalidated. -/
theorem create_merges_override_verbatim_witness :
    (HarmonicsEngine.create msqrtOne overrideSample).getState.fundamentalFreq =
      JSNum.num 330 ∧
    (HarmonicsEngine.create msqrtOne overrideSample).getState.masterVolume = 2 ∧
    (HarmonicsEngine.create msqrtOne overrideSample).getState.harmonics =
      [{ number := 7, active := true, volume := 5 }] ∧
    (HarmonicsEngine.create msqrtOne overrideSample).getState.isPlaying = true := by
  have t := create_merges_override_verbatim msqrtOne overrideSample
  exact ⟨t.1 _ rfl, t.2.1 _ rfl, t.2.2.1 _ rfl, t.2.2.2 _ rfl⟩

end Harmonics
